import Mathlib

/-!
Verification of the extension-preserving JSON codec of the `ibanyu/go-openai`
repository (`json.go`, `chat_stream.go`).

Modelling conventions, applied uniformly:

* JSON payloads and Go in-memory `interface{}` values are both modelled by the
  inductive `GoVal`.  JSON numbers are modelled as integers (no claim under
  consideration depends on fractional or floating-point values).  The
  constructor `unsupported` stands for a Go value that `encoding/json.Marshal`
  rejects (a channel, a function, ...); `json.Unmarshal` never produces it.
* A byte slice that is handed to / produced by the codec is modelled by
  `GoBytes`: either well-formed JSON carrying the parsed value (`Bytes.json v`)
  or a malformed byte sequence (`GoBytes.malformed s`).  Key order of a
  serialized Go map is erased by this representation; no claim compares byte
  sequences across different key orders.
* Go maps (`map[string]interface{}`, `map[string]bool`) are modelled as
  association lists with distinct keys; `setKey` is the in-place update used
  to build them.  A `nil` map that is distinguishable from an empty one
  (the `Extensions` field) is modelled as an `Option`.
* Mutation through a pointer is modelled by explicit state passing: a Go
  function mutating `*RawExtensions` returns the updated store, also on its
  error paths.
* Go's case-insensitive fallback when matching JSON keys to struct fields is
  not modelled: keys are matched exactly.
-/

/-- A decoded JSON value / a Go `interface{}` value. -/
inductive GoVal where
  | null
  | bool (b : Bool)
  | num (n : Int)
  | str (s : String)
  | arr (elems : List GoVal)
  | obj (entries : List (String × GoVal))
  | unsupported (tag : String)

/-- A byte slice as seen by the codec: either well-formed JSON bytes,
remembered by their parse result, or malformed bytes. -/
inductive GoBytes where
  | json (v : GoVal)
  | malformed (s : String)

/-- Key set of an association list (the key set of the Go map it models). -/
def keysOf (es : List (String × GoVal)) : List String :=
  es.map Prod.fst

/-- Lookup in an association list (Go map read `m[k]`). -/
def lookupKey (es : List (String × GoVal)) (k : String) : Option GoVal :=
  match es with
  | [] => none
  | (k', v) :: rest => if k = k' then some v else lookupKey rest k

/-- Go map write `m[k] = v`: replace the binding for `k` if present,
otherwise add one. -/
def setKey (es : List (String × GoVal)) (k : String) (v : GoVal) :
    List (String × GoVal) :=
  match es with
  | [] => [(k, v)]
  | (k', v') :: rest => if k = k' then (k, v) :: rest else (k', v') :: setKey rest k v

/-- Building a Go map from a list of bindings (JSON object entries processed
in order, later bindings overwriting earlier ones). -/
def canonObj (es : List (String × GoVal)) : List (String × GoVal) :=
  es.foldl (fun m kv => setKey m kv.1 kv.2) []

mutual

/-- Whether `encoding/json.Marshal` accepts the value. -/
def serializable : GoVal → Bool
  | .null => true
  | .bool _ => true
  | .num _ => true
  | .str _ => true
  | .unsupported _ => false
  | .arr xs => serializableList xs
  | .obj es => serializableFields es

/-- `serializable` on every element of a list. -/
def serializableList : List GoVal → Bool
  | [] => true
  | v :: rest => serializable v && serializableList rest

/-- `serializable` on every value of an association list. -/
def serializableFields : List (String × GoVal) → Bool
  | [] => true
  | (_, v) :: rest => serializable v && serializableFields rest

end

/-- `encoding/json.Marshal` of a Go value: produces the bytes whose parse is
the value, or fails on an unserializable value. -/
def marshalBytes (v : GoVal) : Except String GoBytes :=
  if serializable v then .ok (.json v) else .error "json: unsupported type"

/-- `encoding/json.Unmarshal` of bytes into a `map[string]interface{}`:
succeeds on a JSON object (building the map) and on JSON `null` (leaving the
map `nil`, modelled as the empty map), fails otherwise. -/
def unmarshalToMap : GoBytes → Except String (List (String × GoVal))
  | .malformed _ => .error "invalid character"
  | .json (.obj es) => .ok (canonObj es)
  | .json .null => .ok []
  | .json _ => .error "json: cannot unmarshal value into map"

/-- The extension store embedded in every extensible record
(`RawExtensions` in `json.go`). -/
structure RawExtensions where
  Extensions : Option (List (String × GoVal)) := none
  RawData : Option GoBytes := none
  ExtensionRawData : Option GoBytes := none

/-- `func (r *RawExtensions) SetExtension(key string, value interface{})`. -/
def RawExtensions.SetExtension (r : RawExtensions) (key : String) (value : GoVal) :
    RawExtensions :=
  match r.Extensions with
  | none => { r with Extensions := some (setKey [] key value) }
  | some m => { r with Extensions := some (setKey m key value) }

/-- `func (r *RawExtensions) GetExtension(key string) (interface{}, bool)`:
the `interface{}` zero value `nil` is `GoVal.null`. -/
def RawExtensions.GetExtension (r : RawExtensions) (key : String) : GoVal × Bool :=
  match r.Extensions with
  | none => (.null, false)
  | some m =>
    match lookupKey m key with
    | some v => (v, true)
    | none => (.null, false)

/-- `func (r *RawExtensions) SetRawData(data []byte)`: stores a copy of the
input bytes (a copy of an immutable value is the value itself). -/
def RawExtensions.SetRawData (r : RawExtensions) (data : GoBytes) : RawExtensions :=
  { r with RawData := some data }

/-- `func (r *RawExtensions) GetRawData() []byte`. -/
def RawExtensions.GetRawData (r : RawExtensions) : Option GoBytes :=
  r.RawData

/-- `func (r *RawExtensions) GetExtensionRawData() []byte`. -/
def RawExtensions.GetExtensionRawData (r : RawExtensions) : Option GoBytes :=
  r.ExtensionRawData

/-- How `encoding/json` treats one concrete target type passed to the codec as
`interface{}`: `marshalAlias` is `json.Marshal` of the record's alias view
(the type-erased view whose `RawExtensions` data is excluded via the
`json:"-"` tags and whose custom marshaler is stripped), `unmarshalAlias` is
`json.Unmarshal` of bytes into that view. -/
class GoJson (α : Type) where
  marshalAlias : α → Except String GoBytes
  unmarshalAlias : GoBytes → α → Except String α

/-- `func getKnownFields(target interface{}) map[string]bool` of `json.go`:
serialize the (already populated) target, parse the result back into a generic
map, and collect the keys; any failure yields the empty set. -/
def getKnownFields {α : Type} [GoJson α] (target : α) : List String :=
  match GoJson.marshalAlias target with
  | .error _ => []
  | .ok targetBytes =>
    match unmarshalToMap targetBytes with
    | .error _ => []
    | .ok targetMap => keysOf targetMap

/-- `func UnmarshalWithExtensions(data []byte, target interface{},
extensions *RawExtensions) error` of `json.go`.  The returned
`RawExtensions` is the state of the store after the call (the Go function
mutates it through the pointer, also on error paths). -/
def UnmarshalWithExtensions {α : Type} [GoJson α] (data : GoBytes) (target : α)
    (extensions : RawExtensions) : RawExtensions × Except String α :=
  let extensions := extensions.SetRawData data
  match GoJson.unmarshalAlias data target with
  | .error e => (extensions, .error ("failed to unmarshal target: " ++ e))
  | .ok target =>
    match unmarshalToMap data with
    | .error e => (extensions, .error ("failed to unmarshal to map: " ++ e))
    | .ok allFields =>
      let knownFields := getKnownFields target
      let extensionFields := allFields.filter (fun kv => !(knownFields.contains kv.1))
      if extensionFields.isEmpty then
        (extensions, .ok target)
      else
        let extensions := { extensions with Extensions := some extensionFields }
        match marshalBytes (.obj extensionFields) with
        | .ok extensionData =>
          ({ extensions with ExtensionRawData := some extensionData }, .ok target)
        | .error _ => (extensions, .ok target)

/-- `func MarshalWithExtensions(target interface{},
extensions map[string]interface{}) ([]byte, error)` of `json.go`.  The `nil`
and the empty extension map coincide in the model (both have zero length). -/
def MarshalWithExtensions {α : Type} [GoJson α] (target : α)
    (extensions : List (String × GoVal)) : Except String GoBytes :=
  match GoJson.marshalAlias target with
  | .error e => .error ("failed to marshal target: " ++ e)
  | .ok baseData =>
    if extensions.isEmpty then .ok baseData
    else
      match unmarshalToMap baseData with
      | .error e => .error ("failed to unmarshal base data: " ++ e)
      | .ok baseMap =>
        marshalBytes (.obj (extensions.foldl (fun m kv => setKey m kv.1 kv.2) baseMap))

/-- Bytes produced by a custom `MarshalJSON`, re-read as a value by the
outer `encoding/json` encoder. -/
def bytesToVal : GoBytes → Except String GoVal
  | .json v => .ok v
  | .malformed _ => .error "json: error calling MarshalJSON"

/-- Decoding one JSON object member into a `string` struct field: absent and
`null` members leave the field unchanged, a string sets it, anything else is a
type error. -/
def decodeStringField (m : List (String × GoVal)) (key : String) (cur : String) :
    Except String String :=
  match lookupKey m key with
  | none => .ok cur
  | some .null => .ok cur
  | some (.str s) => .ok s
  | some _ => .error ("json: cannot unmarshal value into string field " ++ key)

/-- Decoding one JSON object member into an `int` struct field. -/
def decodeIntField (m : List (String × GoVal)) (key : String) (cur : Int) :
    Except String Int :=
  match lookupKey m key with
  | none => .ok cur
  | some .null => .ok cur
  | some (.num n) => .ok n
  | some _ => .error ("json: cannot unmarshal value into int field " ++ key)

/-- Decoding one JSON object member into a pointer field whose pointee type is
abstracted as a JSON value: absent leaves the field, `null` sets the pointer
to `nil`, any other value is stored. -/
def decodeValField (m : List (String × GoVal)) (key : String) (cur : Option GoVal) :
    Option GoVal :=
  match lookupKey m key with
  | none => cur
  | some .null => none
  | some v => some v

/-- Decoding one JSON object member into a slice field whose element type is
abstracted as a JSON value: absent leaves the field, `null` resets the slice
to `nil`, an array is stored element-wise, anything else is a type error. -/
def decodeArrField (m : List (String × GoVal)) (key : String) (cur : List GoVal) :
    Except String (List GoVal) :=
  match lookupKey m key with
  | none => .ok cur
  | some .null => .ok []
  | some (.arr xs) => .ok xs
  | some _ => .error ("json: cannot unmarshal value into slice field " ++ key)

/-- `type ChatCompletionStreamChoiceDelta struct` of `chat_stream.go`.
`FunctionCall` (`*FunctionCall`) and `ToolCalls` (`[]ToolCall`) have types
that are not under src/, so their contents are abstracted as the JSON values
they marshal to; a `nil` slice and an empty slice coincide (both are omitted
by `omitempty` and compare equal fieldwise). -/
structure ChatCompletionStreamChoiceDelta where
  Content : String := ""
  ReasoningContent : String := ""
  Role : String := ""
  FunctionCall : Option GoVal := none
  ToolCalls : List GoVal := []
  Refusal : String := ""
  rawExt : RawExtensions := {}

/-- The JSON tag names of `ChatCompletionStreamChoiceDelta`'s schema fields. -/
def deltaFieldNames : List String :=
  ["content", "reasoning_content", "role", "function_call", "tool_calls", "refusal"]

/-- The object members emitted by `json.Marshal` for the delta's alias view:
every field carries `omitempty`, so empty strings, `nil` pointers and empty
slices are omitted, in declaration order. -/
def deltaBaseFields (d : ChatCompletionStreamChoiceDelta) : List (String × GoVal) :=
  (if d.Content = "" then [] else [("content", .str d.Content)]) ++
  (if d.ReasoningContent = "" then [] else [("reasoning_content", .str d.ReasoningContent)]) ++
  (if d.Role = "" then [] else [("role", .str d.Role)]) ++
  (match d.FunctionCall with
   | none => []
   | some v => [("function_call", v)]) ++
  (if d.ToolCalls.isEmpty then [] else [("tool_calls", .arr d.ToolCalls)]) ++
  (if d.Refusal = "" then [] else [("refusal", .str d.Refusal)])

/-- `json.Marshal` of the delta's alias view. -/
def ChatCompletionStreamChoiceDelta.marshalAlias (d : ChatCompletionStreamChoiceDelta) :
    Except String GoBytes :=
  marshalBytes (.obj (deltaBaseFields d))

/-- `json.Unmarshal` of a JSON object into the delta's alias view. -/
def ChatCompletionStreamChoiceDelta.unmarshalAliasObj (m : List (String × GoVal))
    (d : ChatCompletionStreamChoiceDelta) : Except String ChatCompletionStreamChoiceDelta :=
  match decodeStringField m "content" d.Content with
  | .error e => .error e
  | .ok content =>
    match decodeStringField m "reasoning_content" d.ReasoningContent with
    | .error e => .error e
    | .ok reasoningContent =>
      match decodeStringField m "role" d.Role with
      | .error e => .error e
      | .ok role =>
        let functionCall := decodeValField m "function_call" d.FunctionCall
        match decodeArrField m "tool_calls" d.ToolCalls with
        | .error e => .error e
        | .ok toolCalls =>
          match decodeStringField m "refusal" d.Refusal with
          | .error e => .error e
          | .ok refusal =>
            .ok { Content := content, ReasoningContent := reasoningContent, Role := role,
                  FunctionCall := functionCall, ToolCalls := toolCalls, Refusal := refusal,
                  rawExt := d.rawExt }

/-- `json.Unmarshal` of bytes into the delta's alias view: JSON `null` has no
effect, a JSON object is decoded member-wise, anything else is a type error. -/
def ChatCompletionStreamChoiceDelta.unmarshalAlias (data : GoBytes)
    (d : ChatCompletionStreamChoiceDelta) : Except String ChatCompletionStreamChoiceDelta :=
  match data with
  | .malformed _ => .error "invalid character"
  | .json .null => .ok d
  | .json (.obj es) => d.unmarshalAliasObj (canonObj es)
  | .json _ => .error "json: cannot unmarshal value into struct"

instance : GoJson ChatCompletionStreamChoiceDelta where
  marshalAlias := ChatCompletionStreamChoiceDelta.marshalAlias
  unmarshalAlias := ChatCompletionStreamChoiceDelta.unmarshalAlias

/-- `func (r ChatCompletionStreamChoiceDelta) MarshalJSON() ([]byte, error)`:
marshal the alias/exclusion view together with the stored extensions. -/
def ChatCompletionStreamChoiceDelta.MarshalJSON (r : ChatCompletionStreamChoiceDelta) :
    Except String GoBytes :=
  MarshalWithExtensions r (r.rawExt.Extensions.getD [])

/-- `func (r *ChatCompletionStreamChoiceDelta) UnmarshalJSON(data []byte) error`:
the receiver is mutated in place, so the model returns the updated record next
to the error value. -/
def ChatCompletionStreamChoiceDelta.UnmarshalJSON (r : ChatCompletionStreamChoiceDelta)
    (data : GoBytes) : ChatCompletionStreamChoiceDelta × Except String Unit :=
  match UnmarshalWithExtensions data r r.rawExt with
  | (ext, .ok t) => ({ t with rawExt := ext }, .ok ())
  | (ext, .error e) => ({ r with rawExt := ext }, .error e)

/-- `type ChatCompletionTokenLogprobTopLogprob struct` of `chat_stream.go`.
`Bytes` (`[]int64`, tag `json:"bytes"` without `omitempty`) distinguishes the
`nil` slice (marshals to JSON `null`) from a non-nil one, hence the `Option`.
`Logprob` (`float64`) is modelled as an integer. -/
structure ChatCompletionTokenLogprobTopLogprob where
  Token : String := ""
  Bytes : Option (List Int) := none
  Logprob : Int := 0
  rawExt : RawExtensions := {}

/-- The object members emitted for the top-logprob's alias view: none of the
three fields carries `omitempty`, so all are always emitted. -/
def topLogprobBaseFields (t : ChatCompletionTokenLogprobTopLogprob) :
    List (String × GoVal) :=
  [("token", .str t.Token),
   ("bytes", match t.Bytes with
             | none => .null
             | some xs => .arr (xs.map GoVal.num)),
   ("logprob", .num t.Logprob)]

def ChatCompletionTokenLogprobTopLogprob.marshalAlias
    (t : ChatCompletionTokenLogprobTopLogprob) : Except String GoBytes :=
  marshalBytes (.obj (topLogprobBaseFields t))

/-- Decoding a JSON array of numbers into an `[]int64` field. -/
def decodeIntList : List GoVal → Except String (List Int)
  | [] => .ok []
  | .num n :: rest =>
    match decodeIntList rest with
    | .ok ns => .ok (n :: ns)
    | .error e => .error e
  | _ :: _ => .error "json: cannot unmarshal value into int64 element"

def ChatCompletionTokenLogprobTopLogprob.unmarshalAliasObj (m : List (String × GoVal))
    (t : ChatCompletionTokenLogprobTopLogprob) :
    Except String ChatCompletionTokenLogprobTopLogprob :=
  match decodeStringField m "token" t.Token with
  | .error e => .error e
  | .ok token =>
    match
      (match lookupKey m "bytes" with
       | none => Except.ok t.Bytes
       | some .null => Except.ok none
       | some (.arr xs) =>
         match decodeIntList xs with
         | .ok ns => Except.ok (some ns)
         | .error e => Except.error e
       | some _ => Except.error "json: cannot unmarshal value into slice field bytes")
    with
    | .error e => .error e
    | .ok bytes =>
      match decodeIntField m "logprob" t.Logprob with
      | .error e => .error e
      | .ok logprob =>
        .ok { Token := token, Bytes := bytes, Logprob := logprob, rawExt := t.rawExt }

def ChatCompletionTokenLogprobTopLogprob.unmarshalAlias (data : GoBytes)
    (t : ChatCompletionTokenLogprobTopLogprob) :
    Except String ChatCompletionTokenLogprobTopLogprob :=
  match data with
  | .malformed _ => .error "invalid character"
  | .json .null => .ok t
  | .json (.obj es) => t.unmarshalAliasObj (canonObj es)
  | .json _ => .error "json: cannot unmarshal value into struct"

instance : GoJson ChatCompletionTokenLogprobTopLogprob where
  marshalAlias := ChatCompletionTokenLogprobTopLogprob.marshalAlias
  unmarshalAlias := ChatCompletionTokenLogprobTopLogprob.unmarshalAlias

def ChatCompletionTokenLogprobTopLogprob.MarshalJSON
    (r : ChatCompletionTokenLogprobTopLogprob) : Except String GoBytes :=
  MarshalWithExtensions r (r.rawExt.Extensions.getD [])

def ChatCompletionTokenLogprobTopLogprob.UnmarshalJSON
    (r : ChatCompletionTokenLogprobTopLogprob) (data : GoBytes) :
    ChatCompletionTokenLogprobTopLogprob × Except String Unit :=
  match UnmarshalWithExtensions data r r.rawExt with
  | (ext, .ok t) => ({ t with rawExt := ext }, .ok ())
  | (ext, .error e) => ({ r with rawExt := ext }, .error e)

/-- `type ChatCompletionTokenLogprob struct` of `chat_stream.go`.  `Bytes` and
`Logprob` carry `omitempty` (`nil` and empty slices coincide; `0` is omitted);
`TopLogprobs` has tag `json:"top_logprobs"` without `omitempty`, so a `nil`
slice is emitted as JSON `null`. -/
structure ChatCompletionTokenLogprob where
  Token : String := ""
  Bytes : List Int := []
  Logprob : Int := 0
  TopLogprobs : Option (List ChatCompletionTokenLogprobTopLogprob) := none
  rawExt : RawExtensions := {}

/-- Marshal a list of values via their custom `MarshalJSON`. -/
def marshalEach {α : Type} (f : α → Except String GoBytes) :
    List α → Except String (List GoVal)
  | [] => .ok []
  | x :: rest =>
    match f x with
    | .error e => .error e
    | .ok b =>
      match bytesToVal b with
      | .error e => .error e
      | .ok v =>
        match marshalEach f rest with
        | .error e => .error e
        | .ok vs => .ok (v :: vs)

def ChatCompletionTokenLogprob.marshalAlias (t : ChatCompletionTokenLogprob) :
    Except String GoBytes :=
  match
    (match t.TopLogprobs with
     | none => Except.ok GoVal.null
     | some xs =>
       match marshalEach ChatCompletionTokenLogprobTopLogprob.MarshalJSON xs with
       | .error e => Except.error e
       | .ok vs => Except.ok (GoVal.arr vs))
  with
  | .error e => .error e
  | .ok tops =>
    marshalBytes (.obj
      ([("token", .str t.Token)] ++
       (if t.Bytes.isEmpty then [] else [("bytes", .arr (t.Bytes.map GoVal.num))]) ++
       (if t.Logprob = 0 then [] else [("logprob", .num t.Logprob)]) ++
       [("top_logprobs", tops)]))

/-- Unmarshal a JSON array element-wise into fresh records via their custom
`UnmarshalJSON`. -/
def unmarshalEach {α : Type} (f : α → GoBytes → α × Except String Unit) (fresh : α) :
    List GoVal → Except String (List α)
  | [] => .ok []
  | v :: rest =>
    match f fresh (.json v) with
    | (_, .error e) => .error e
    | (x, .ok _) =>
      match unmarshalEach f fresh rest with
      | .error e => .error e
      | .ok xs => .ok (x :: xs)

def ChatCompletionTokenLogprob.unmarshalAliasObj (m : List (String × GoVal))
    (t : ChatCompletionTokenLogprob) : Except String ChatCompletionTokenLogprob :=
  match decodeStringField m "token" t.Token with
  | .error e => .error e
  | .ok token =>
    match
      (match lookupKey m "bytes" with
       | none => Except.ok t.Bytes
       | some .null => Except.ok []
       | some (.arr xs) => decodeIntList xs
       | some _ => Except.error "json: cannot unmarshal value into slice field bytes")
    with
    | .error e => .error e
    | .ok bytes =>
      match decodeIntField m "logprob" t.Logprob with
      | .error e => .error e
      | .ok logprob =>
        match
          (match lookupKey m "top_logprobs" with
           | none => Except.ok t.TopLogprobs
           | some .null => Except.ok none
           | some (.arr xs) =>
             match unmarshalEach ChatCompletionTokenLogprobTopLogprob.UnmarshalJSON {} xs with
             | .error e => Except.error e
             | .ok ts => Except.ok (some ts)
           | some _ => Except.error "json: cannot unmarshal value into slice field top_logprobs")
        with
        | .error e => .error e
        | .ok tops =>
          .ok { Token := token, Bytes := bytes, Logprob := logprob, TopLogprobs := tops,
                rawExt := t.rawExt }

def ChatCompletionTokenLogprob.unmarshalAlias (data : GoBytes)
    (t : ChatCompletionTokenLogprob) : Except String ChatCompletionTokenLogprob :=
  match data with
  | .malformed _ => .error "invalid character"
  | .json .null => .ok t
  | .json (.obj es) => t.unmarshalAliasObj (canonObj es)
  | .json _ => .error "json: cannot unmarshal value into struct"

instance : GoJson ChatCompletionTokenLogprob where
  marshalAlias := ChatCompletionTokenLogprob.marshalAlias
  unmarshalAlias := ChatCompletionTokenLogprob.unmarshalAlias

def ChatCompletionTokenLogprob.MarshalJSON (r : ChatCompletionTokenLogprob) :
    Except String GoBytes :=
  MarshalWithExtensions r (r.rawExt.Extensions.getD [])

def ChatCompletionTokenLogprob.UnmarshalJSON (r : ChatCompletionTokenLogprob)
    (data : GoBytes) : ChatCompletionTokenLogprob × Except String Unit :=
  match UnmarshalWithExtensions data r r.rawExt with
  | (ext, .ok t) => ({ t with rawExt := ext }, .ok ())
  | (ext, .error e) => ({ r with rawExt := ext }, .error e)

/-- `type ChatCompletionStreamChoiceLogprobs struct` of `chat_stream.go`. -/
structure ChatCompletionStreamChoiceLogprobs where
  Content : List ChatCompletionTokenLogprob := []
  Refusal : List ChatCompletionTokenLogprob := []
  rawExt : RawExtensions := {}

def ChatCompletionStreamChoiceLogprobs.marshalAlias
    (l : ChatCompletionStreamChoiceLogprobs) : Except String GoBytes :=
  match
    (if l.Content.isEmpty then Except.ok []
     else
       match marshalEach ChatCompletionTokenLogprob.MarshalJSON l.Content with
       | .error e => Except.error e
       | .ok vs => Except.ok [("content", GoVal.arr vs)])
  with
  | .error e => .error e
  | .ok contentFields =>
    match
      (if l.Refusal.isEmpty then Except.ok []
       else
         match marshalEach ChatCompletionTokenLogprob.MarshalJSON l.Refusal with
         | .error e => Except.error e
         | .ok vs => Except.ok [("refusal", GoVal.arr vs)])
    with
    | .error e => .error e
    | .ok refusalFields => marshalBytes (.obj (contentFields ++ refusalFields))

def ChatCompletionStreamChoiceLogprobs.unmarshalAliasObj (m : List (String × GoVal))
    (l : ChatCompletionStreamChoiceLogprobs) :
    Except String ChatCompletionStreamChoiceLogprobs :=
  match
    (match lookupKey m "content" with
     | none => Except.ok l.Content
     | some .null => Except.ok []
     | some (.arr xs) => unmarshalEach ChatCompletionTokenLogprob.UnmarshalJSON {} xs
     | some _ => Except.error "json: cannot unmarshal value into slice field content")
  with
  | .error e => .error e
  | .ok content =>
    match
      (match lookupKey m "refusal" with
       | none => Except.ok l.Refusal
       | some .null => Except.ok []
       | some (.arr xs) => unmarshalEach ChatCompletionTokenLogprob.UnmarshalJSON {} xs
       | some _ => Except.error "json: cannot unmarshal value into slice field refusal")
    with
    | .error e => .error e
    | .ok refusal => .ok { Content := content, Refusal := refusal, rawExt := l.rawExt }

def ChatCompletionStreamChoiceLogprobs.unmarshalAlias (data : GoBytes)
    (l : ChatCompletionStreamChoiceLogprobs) :
    Except String ChatCompletionStreamChoiceLogprobs :=
  match data with
  | .malformed _ => .error "invalid character"
  | .json .null => .ok l
  | .json (.obj es) => l.unmarshalAliasObj (canonObj es)
  | .json _ => .error "json: cannot unmarshal value into struct"

instance : GoJson ChatCompletionStreamChoiceLogprobs where
  marshalAlias := ChatCompletionStreamChoiceLogprobs.marshalAlias
  unmarshalAlias := ChatCompletionStreamChoiceLogprobs.unmarshalAlias

def ChatCompletionStreamChoiceLogprobs.MarshalJSON
    (r : ChatCompletionStreamChoiceLogprobs) : Except String GoBytes :=
  MarshalWithExtensions r (r.rawExt.Extensions.getD [])

def ChatCompletionStreamChoiceLogprobs.UnmarshalJSON
    (r : ChatCompletionStreamChoiceLogprobs) (data : GoBytes) :
    ChatCompletionStreamChoiceLogprobs × Except String Unit :=
  match UnmarshalWithExtensions data r r.rawExt with
  | (ext, .ok t) => ({ t with rawExt := ext }, .ok ())
  | (ext, .error e) => ({ r with rawExt := ext }, .error e)

/-- Modelled from the spec: the `FinishReason` type and its custom
`MarshalJSON` live in `chat.go`, which is not under src/ (only
`TestFinishReason` and the `FinishReason` field declaration are).  Spec:
"`finish_reason` serializes as JSON `null` when unset or empty, never as the
empty string." -/
def finishReasonJSON (r : String) : GoVal :=
  if r = "" then .null else .str r

/-- `type ChatCompletionStreamChoice struct` of `chat_stream.go`.
`ContentFilterResults` has a type that is not under src/; it is a plain
struct (which `omitempty` never omits), so it is abstracted as the JSON value
it marshals to and always emitted. -/
structure ChatCompletionStreamChoice where
  Index : Int := 0
  Delta : ChatCompletionStreamChoiceDelta := {}
  Logprobs : Option ChatCompletionStreamChoiceLogprobs := none
  FinishReason : String := ""
  ContentFilterResults : GoVal := .obj []
  rawExt : RawExtensions := {}

/-- The object members emitted by `json.Marshal` for the choice's alias view:
`index`, `delta` and `finish_reason` carry no `omitempty`; `logprobs` is an
`omitempty` pointer; `content_filter_results` is an `omitempty` struct, which
`encoding/json` emits regardless.  Nested records marshal through their own
custom `MarshalJSON`. -/
def ChatCompletionStreamChoice.baseFields (c : ChatCompletionStreamChoice) :
    Except String (List (String × GoVal)) :=
  match c.Delta.MarshalJSON with
  | .error e => .error e
  | .ok db =>
    match bytesToVal db with
    | .error e => .error e
    | .ok dv =>
      match c.Logprobs with
      | none =>
        .ok [("index", .num c.Index), ("delta", dv),
             ("finish_reason", finishReasonJSON c.FinishReason),
             ("content_filter_results", c.ContentFilterResults)]
      | some lp =>
        match lp.MarshalJSON with
        | .error e => .error e
        | .ok lb =>
          match bytesToVal lb with
          | .error e => .error e
          | .ok lv =>
            .ok [("index", .num c.Index), ("delta", dv), ("logprobs", lv),
                 ("finish_reason", finishReasonJSON c.FinishReason),
                 ("content_filter_results", c.ContentFilterResults)]

def ChatCompletionStreamChoice.marshalAlias (c : ChatCompletionStreamChoice) :
    Except String GoBytes :=
  match c.baseFields with
  | .error e => .error e
  | .ok fs => marshalBytes (.obj fs)

def ChatCompletionStreamChoice.unmarshalAliasObj (m : List (String × GoVal))
    (c : ChatCompletionStreamChoice) : Except String ChatCompletionStreamChoice :=
  match decodeIntField m "index" c.Index with
  | .error e => .error e
  | .ok index =>
    match
      (match lookupKey m "delta" with
       | none => Except.ok c.Delta
       | some v =>
         match c.Delta.UnmarshalJSON (.json v) with
         | (d, .ok _) => Except.ok d
         | (_, .error e) => Except.error e)
    with
    | .error e => .error e
    | .ok delta =>
      match
        (match lookupKey m "logprobs" with
         | none => Except.ok c.Logprobs
         | some .null => Except.ok none
         | some v =>
           match (c.Logprobs.getD {}).UnmarshalJSON (.json v) with
           | (l, .ok _) => Except.ok (some l)
           | (_, .error e) => Except.error e)
      with
      | .error e => .error e
      | .ok logprobs =>
        match decodeStringField m "finish_reason" c.FinishReason with
        | .error e => .error e
        | .ok finishReason =>
          let contentFilterResults :=
            match lookupKey m "content_filter_results" with
            | none => c.ContentFilterResults
            | some .null => c.ContentFilterResults
            | some v => v
          .ok { Index := index, Delta := delta, Logprobs := logprobs,
                FinishReason := finishReason,
                ContentFilterResults := contentFilterResults, rawExt := c.rawExt }

def ChatCompletionStreamChoice.unmarshalAlias (data : GoBytes)
    (c : ChatCompletionStreamChoice) : Except String ChatCompletionStreamChoice :=
  match data with
  | .malformed _ => .error "invalid character"
  | .json .null => .ok c
  | .json (.obj es) => c.unmarshalAliasObj (canonObj es)
  | .json _ => .error "json: cannot unmarshal value into struct"

instance : GoJson ChatCompletionStreamChoice where
  marshalAlias := ChatCompletionStreamChoice.marshalAlias
  unmarshalAlias := ChatCompletionStreamChoice.unmarshalAlias

/-- `func (r ChatCompletionStreamChoice) MarshalJSON() ([]byte, error)`. -/
def ChatCompletionStreamChoice.MarshalJSON (r : ChatCompletionStreamChoice) :
    Except String GoBytes :=
  MarshalWithExtensions r (r.rawExt.Extensions.getD [])

/-- `func (r *ChatCompletionStreamChoice) UnmarshalJSON(data []byte) error`. -/
def ChatCompletionStreamChoice.UnmarshalJSON (r : ChatCompletionStreamChoice)
    (data : GoBytes) : ChatCompletionStreamChoice × Except String Unit :=
  match UnmarshalWithExtensions data r r.rawExt with
  | (ext, .ok t) => ({ t with rawExt := ext }, .ok ())
  | (ext, .error e) => ({ r with rawExt := ext }, .error e)

/-- Modelled from the spec: `ChatCompletionMessage` and its custom
`MarshalJSON` live in `chat.go`, which is not under src/ (only its tests
are).  Spec: a message is either `{"role": string, "content": string, ...}`
or `{"role": string, "content": [part, ...], ...}`; "a message carrying both
a non-empty single content value and a non-empty multi-content sequence is
invalid and must fail encoding" with `ContentFieldsConflict`
(`ErrContentFieldsMisused` in the tests).  Message parts are abstracted as
the JSON values they marshal to.  Per the tests, an empty content string and
an empty part list are both omitted from the output. -/
structure ChatCompletionMessage where
  Role : String := ""
  Content : String := ""
  MultiContent : List GoVal := []

/-- Modelled from the spec: encoding of a chat message (see
`ChatCompletionMessage`).  The exclusivity check runs first; then exactly one
form of `content` is emitted. -/
def ChatCompletionMessage.MarshalJSON (m : ChatCompletionMessage) :
    Except String GoBytes :=
  if m.Content ≠ "" ∧ ¬m.MultiContent.isEmpty then .error "ErrContentFieldsMisused"
  else
    marshalBytes (.obj
      ((if m.Role = "" then [] else [("role", .str m.Role)]) ++
       (if ¬m.MultiContent.isEmpty then [("content", .arr m.MultiContent)]
        else if m.Content = "" then [] else [("content", .str m.Content)])))

theorem keysOf_nil : keysOf [] = [] := rfl

theorem keysOf_cons (k : String) (v : GoVal) (tl : List (String × GoVal)) :
    keysOf ((k, v) :: tl) = k :: keysOf tl := rfl

theorem keysOf_append (a b : List (String × GoVal)) :
    keysOf (a ++ b) = keysOf a ++ keysOf b := by
  simp [keysOf]

theorem mem_keysOf (p : String × GoVal) (l : List (String × GoVal)) (h : p ∈ l) :
    p.1 ∈ keysOf l := List.mem_map_of_mem Prod.fst h

theorem lookupKey_append (a b : List (String × GoVal)) (k : String) :
    lookupKey (a ++ b) k =
      match lookupKey a k with
      | some v => some v
      | none => lookupKey b k := by
  induction a with
  | nil => simp [lookupKey]
  | cons hd tl ih =>
    obtain ⟨k₁, v₁⟩ := hd
    by_cases h : k = k₁ <;> simp [lookupKey, h, ih]

theorem lookupKey_eq_none (es : List (String × GoVal)) (k : String)
    (h : k ∉ keysOf es) : lookupKey es k = none := by
  induction es with
  | nil => rfl
  | cons hd tl ih =>
    obtain ⟨k₁, v₁⟩ := hd
    rw [keysOf_cons, List.mem_cons, not_or] at h
    simp [lookupKey, h.1, ih h.2]

theorem mem_keysOf_of_lookup (es : List (String × GoVal)) (k : String) (v : GoVal)
    (h : lookupKey es k = some v) : k ∈ keysOf es := by
  induction es with
  | nil => simp [lookupKey] at h
  | cons hd tl ih =>
    obtain ⟨k₁, v₁⟩ := hd
    rw [keysOf_cons, List.mem_cons]
    by_cases hk : k = k₁
    · exact Or.inl hk
    · simp [lookupKey, hk] at h
      exact Or.inr (ih h)

theorem lookup_isSome_of_mem_keysOf (es : List (String × GoVal)) (k : String)
    (h : k ∈ keysOf es) : (lookupKey es k).isSome = true := by
  induction es with
  | nil => simp [keysOf_nil] at h
  | cons hd tl ih =>
    obtain ⟨k₁, v₁⟩ := hd
    by_cases hk : k = k₁
    · simp [lookupKey, hk]
    · rw [keysOf_cons, List.mem_cons] at h
      rcases h with h | h
      · exact absurd h hk
      · simp [lookupKey, hk, ih h]

theorem isEmpty_false_of_lookup (es : List (String × GoVal)) (k : String) (v : GoVal)
    (h : lookupKey es k = some v) : es.isEmpty = false := by
  cases es with
  | nil => simp [lookupKey] at h
  | cons hd tl => simp

theorem lookupKey_setKey (m : List (String × GoVal)) (k k' : String) (v : GoVal) :
    lookupKey (setKey m k v) k' = if k' = k then some v else lookupKey m k' := by
  induction m with
  | nil => simp [setKey, lookupKey]
  | cons hd tl ih =>
    obtain ⟨k₁, v₁⟩ := hd
    by_cases h1 : k = k₁
    · subst h1
      by_cases h2 : k' = k <;> simp [setKey, lookupKey, h2]
    · by_cases h2 : k' = k₁ <;> by_cases h3 : k' = k <;>
        simp_all [setKey, lookupKey]

theorem setKey_of_not_mem (m : List (String × GoVal)) (k : String) (v : GoVal)
    (h : k ∉ keysOf m) : setKey m k v = m ++ [(k, v)] := by
  induction m with
  | nil => rfl
  | cons hd tl ih =>
    obtain ⟨k₁, v₁⟩ := hd
    rw [keysOf_cons, List.mem_cons, not_or] at h
    simp [setKey, h.1, ih h.2]

theorem foldl_setKey_append (l : List (String × GoVal)) :
    ∀ acc : List (String × GoVal), (∀ p ∈ l, p.1 ∉ keysOf acc) → (keysOf l).Nodup →
    List.foldl (fun m kv => setKey m kv.1 kv.2) acc l = acc ++ l := by
  induction l with
  | nil => intro acc _ _; simp
  | cons hd tl ih =>
    intro acc hdisj hnodup
    obtain ⟨k, v⟩ := hd
    rw [keysOf_cons, List.nodup_cons] at hnodup
    have hk : k ∉ keysOf acc := hdisj (k, v) (by simp)
    have hstep : setKey acc k v = acc ++ [(k, v)] := setKey_of_not_mem acc k v hk
    simp only [List.foldl_cons, hstep]
    have hdisj' : ∀ p ∈ tl, p.1 ∉ keysOf (acc ++ [(k, v)]) := by
      intro p hp
      have h1 : p.1 ∉ keysOf acc := hdisj p (by simp [hp])
      have h2 : p.1 ≠ k := by
        intro hcontra
        exact hnodup.1 (hcontra ▸ mem_keysOf p tl hp)
      rw [keysOf_append]
      simp [keysOf_cons, keysOf_nil, h1, h2]
    rw [ih (acc ++ [(k, v)]) hdisj' hnodup.2]
    simp

theorem canonObj_of_nodup (l : List (String × GoVal)) (h : (keysOf l).Nodup) :
    canonObj l = l := by
  unfold canonObj
  simpa using foldl_setKey_append l [] (by simp [keysOf_nil]) h

theorem lookupKey_foldl_of_none (l : List (String × GoVal)) (k : String)
    (h : lookupKey l k = none) :
    ∀ m, lookupKey (List.foldl (fun m kv => setKey m kv.1 kv.2) m l) k = lookupKey m k := by
  induction l with
  | nil => intro m; rfl
  | cons hd tl ih =>
    intro m
    obtain ⟨k₁, v₁⟩ := hd
    by_cases hk : k = k₁
    · simp [lookupKey, hk] at h
    · simp [lookupKey, hk] at h
      simp only [List.foldl_cons]
      rw [ih h (setKey m k₁ v₁), lookupKey_setKey]
      simp [hk]

theorem lookupKey_foldl_of_some (l : List (String × GoVal)) (k : String) (v : GoVal)
    (hnodup : (keysOf l).Nodup) (h : lookupKey l k = some v) :
    ∀ m, lookupKey (List.foldl (fun m kv => setKey m kv.1 kv.2) m l) k = some v := by
  induction l with
  | nil => intro m; simp [lookupKey] at h
  | cons hd tl ih =>
    intro m
    obtain ⟨k₁, v₁⟩ := hd
    rw [keysOf_cons, List.nodup_cons] at hnodup
    simp only [List.foldl_cons]
    by_cases hk : k = k₁
    · simp [lookupKey, hk] at h
      subst hk
      rw [lookupKey_foldl_of_none tl k (lookupKey_eq_none tl k hnodup.1)]
      rw [lookupKey_setKey]
      simp [h]
    · simp [lookupKey, hk] at h
      exact ih hnodup.2 h (setKey m k₁ v₁)

theorem keysOf_canonObj_sub (l : List (String × GoVal)) (k : String)
    (h : k ∈ keysOf (canonObj l)) : k ∈ keysOf l := by
  by_contra hk
  have hnone : lookupKey l k = none := lookupKey_eq_none l k hk
  have hcanon : lookupKey (canonObj l) k = none := by
    unfold canonObj
    rw [lookupKey_foldl_of_none l k hnone []]
    rfl
  have := lookup_isSome_of_mem_keysOf (canonObj l) k h
  simp [hcanon] at this

theorem filterKeys_all_known (l : List (String × GoVal)) (ks : List String)
    (h : ∀ p ∈ l, p.1 ∈ ks) :
    l.filter (fun kv => !(ks.contains kv.1)) = [] :=
  List.filter_eq_nil_iff.mpr (fun p hp => by simp [h p hp])

theorem filterKeys_none_known (l : List (String × GoVal)) (ks : List String)
    (h : ∀ p ∈ l, p.1 ∉ ks) :
    l.filter (fun kv => !(ks.contains kv.1)) = l :=
  List.filter_eq_self.mpr (fun p hp => by simp [h p hp])

theorem lookupKey_filterKeys (q : String → Bool) (l : List (String × GoVal)) (k : String) :
    lookupKey (l.filter (fun kv => q kv.1)) k = if q k then lookupKey l k else none := by
  induction l with
  | nil => simp [lookupKey]
  | cons hd tl ih =>
    obtain ⟨k₁, v₁⟩ := hd
    by_cases hq1 : q k₁ <;> by_cases hk : k = k₁ <;>
      simp_all [List.filter_cons, lookupKey]

theorem serializableFields_append (a b : List (String × GoVal)) :
    serializableFields (a ++ b) = (serializableFields a && serializableFields b) := by
  induction a with
  | nil => simp [serializableFields]
  | cons hd tl ih =>
    obtain ⟨k, v⟩ := hd
    simp [serializableFields, ih, Bool.and_assoc]

theorem lookup_dbf_content (d : ChatCompletionStreamChoiceDelta) :
    lookupKey (deltaBaseFields d) "content" =
      if d.Content = "" then none else some (.str d.Content) := by
  unfold deltaBaseFields
  simp only [lookupKey_append]
  by_cases h1 : d.Content = "" <;>
    cases d.FunctionCall <;>
      simp [h1, lookupKey] <;> split_ifs <;> simp [lookupKey]

theorem lookup_dbf_reasoning (d : ChatCompletionStreamChoiceDelta) :
    lookupKey (deltaBaseFields d) "reasoning_content" =
      if d.ReasoningContent = "" then none else some (.str d.ReasoningContent) := by
  unfold deltaBaseFields
  simp only [lookupKey_append]
  by_cases h1 : d.ReasoningContent = "" <;>
    cases d.FunctionCall <;>
      simp [h1, lookupKey] <;> split_ifs <;> simp [lookupKey]

theorem lookup_dbf_role (d : ChatCompletionStreamChoiceDelta) :
    lookupKey (deltaBaseFields d) "role" =
      if d.Role = "" then none else some (.str d.Role) := by
  unfold deltaBaseFields
  simp only [lookupKey_append]
  by_cases h1 : d.Role = "" <;>
    cases d.FunctionCall <;>
      simp [h1, lookupKey] <;> split_ifs <;> simp [lookupKey]

theorem lookup_dbf_function_call (d : ChatCompletionStreamChoiceDelta) :
    lookupKey (deltaBaseFields d) "function_call" =
      match d.FunctionCall with
      | none => none
      | some v => some v := by
  unfold deltaBaseFields
  simp only [lookupKey_append]
  cases d.FunctionCall <;>
    simp [lookupKey] <;> split_ifs <;> simp [lookupKey]

theorem lookup_dbf_tool_calls (d : ChatCompletionStreamChoiceDelta) :
    lookupKey (deltaBaseFields d) "tool_calls" =
      if d.ToolCalls.isEmpty then none else some (.arr d.ToolCalls) := by
  unfold deltaBaseFields
  simp only [lookupKey_append]
  by_cases h1 : d.ToolCalls.isEmpty <;>
    cases d.FunctionCall <;>
      simp [h1, lookupKey] <;> split_ifs <;> simp [lookupKey]

theorem lookup_dbf_refusal (d : ChatCompletionStreamChoiceDelta) :
    lookupKey (deltaBaseFields d) "refusal" =
      if d.Refusal = "" then none else some (.str d.Refusal) := by
  unfold deltaBaseFields
  simp only [lookupKey_append]
  by_cases h1 : d.Refusal = "" <;>
    cases d.FunctionCall <;>
      simp [h1, lookupKey] <;> split_ifs <;> simp [lookupKey]

theorem keysOf_if_single_sublist (c : Prop) [Decidable c] (k : String) (v : GoVal) :
    (keysOf (if c then [] else [(k, v)])).Sublist [k] := by
  split <;> simp [keysOf]

theorem keysOf_match_fc_sublist (o : Option GoVal) :
    (keysOf (match o with
             | none => []
             | some v => [("function_call", v)])).Sublist ["function_call"] := by
  cases o <;> simp [keysOf]

theorem keysOf_dbf_sublist (d : ChatCompletionStreamChoiceDelta) :
    (keysOf (deltaBaseFields d)).Sublist deltaFieldNames := by
  unfold deltaBaseFields
  simp only [keysOf_append]
  have h :
      ((((((keysOf (if d.Content = "" then [] else [("content", .str d.Content)])) ++
        keysOf (if d.ReasoningContent = "" then []
                else [("reasoning_content", .str d.ReasoningContent)])) ++
        keysOf (if d.Role = "" then [] else [("role", .str d.Role)])) ++
        keysOf (match d.FunctionCall with
                | none => []
                | some v => [("function_call", v)])) ++
        keysOf (if d.ToolCalls.isEmpty then [] else [("tool_calls", .arr d.ToolCalls)])) ++
        keysOf (if d.Refusal = "" then [] else [("refusal", .str d.Refusal)])).Sublist
      (((((["content"] ++ ["reasoning_content"]) ++ ["role"]) ++ ["function_call"]) ++
        ["tool_calls"]) ++ ["refusal"]) := by
    refine List.Sublist.append (List.Sublist.append (List.Sublist.append
      (List.Sublist.append (List.Sublist.append ?_ ?_) ?_) ?_) ?_) ?_
    · exact keysOf_if_single_sublist _ _ _
    · exact keysOf_if_single_sublist _ _ _
    · exact keysOf_if_single_sublist _ _ _
    · exact keysOf_match_fc_sublist _
    · exact keysOf_if_single_sublist _ _ _
    · exact keysOf_if_single_sublist _ _ _
  simpa [deltaFieldNames] using h

theorem keysOf_dbf_sub (d : ChatCompletionStreamChoiceDelta) :
    ∀ k ∈ keysOf (deltaBaseFields d), k ∈ deltaFieldNames :=
  fun _ hk => (keysOf_dbf_sublist d).subset hk

theorem nodup_keysOf_dbf (d : ChatCompletionStreamChoiceDelta) :
    (keysOf (deltaBaseFields d)).Nodup := by
  have hnames : deltaFieldNames.Nodup := by unfold deltaFieldNames; decide
  exact hnames.sublist (keysOf_dbf_sublist d)

theorem serializable_dbf (d : ChatCompletionStreamChoiceDelta)
    (hfc : ∀ v, d.FunctionCall = some v → serializable v = true)
    (htc : serializableList d.ToolCalls = true) :
    serializableFields (deltaBaseFields d) = true := by
  unfold deltaBaseFields
  cases hfc' : d.FunctionCall with
  | none =>
    split_ifs <;> simp_all [serializableFields_append, serializableFields, serializable]
  | some v =>
    have hv := hfc v hfc'
    split_ifs <;> simp_all [serializableFields_append, serializableFields, serializable]

theorem marshalAlias_delta (d : ChatCompletionStreamChoiceDelta) :
    GoJson.marshalAlias d = ChatCompletionStreamChoiceDelta.marshalAlias d := rfl

theorem unmarshalAlias_delta (data : GoBytes) (d : ChatCompletionStreamChoiceDelta) :
    GoJson.unmarshalAlias data d = ChatCompletionStreamChoiceDelta.unmarshalAlias data d := rfl

theorem decodeStringField_of_lookup (m : List (String × GoVal)) (key x : String)
    (h : lookupKey m key = if x = "" then none else some (.str x)) :
    decodeStringField m key "" = .ok x := by
  unfold decodeStringField
  rw [h]
  by_cases hx : x = "" <;> simp [hx]

theorem decodeValField_of_lookup (m : List (String × GoVal)) (key : String)
    (fc : Option GoVal)
    (h : lookupKey m key = match fc with
                           | none => none
                           | some v => some v)
    (hnn : ∀ v, fc = some v → v ≠ .null) :
    decodeValField m key none = fc := by
  unfold decodeValField
  rw [h]
  cases fc with
  | none => rfl
  | some v =>
    cases v <;> first
      | rfl
      | exact absurd rfl (hnn _ rfl)

theorem decodeArrField_of_lookup (m : List (String × GoVal)) (key : String)
    (tc : List GoVal)
    (h : lookupKey m key = if tc.isEmpty then none else some (.arr tc)) :
    decodeArrField m key [] = .ok tc := by
  unfold decodeArrField
  rw [h]
  cases tc <;> rfl

theorem delta_unmarshalAliasObj_of_lookups (m : List (String × GoVal))
    (d : ChatCompletionStreamChoiceDelta)
    (h1 : lookupKey m "content" = if d.Content = "" then none else some (.str d.Content))
    (h2 : lookupKey m "reasoning_content" =
            if d.ReasoningContent = "" then none else some (.str d.ReasoningContent))
    (h3 : lookupKey m "role" = if d.Role = "" then none else some (.str d.Role))
    (h4 : lookupKey m "function_call" = match d.FunctionCall with
                                        | none => none
                                        | some v => some v)
    (hnn : ∀ v, d.FunctionCall = some v → v ≠ .null)
    (h5 : lookupKey m "tool_calls" =
            if d.ToolCalls.isEmpty then none else some (.arr d.ToolCalls))
    (h6 : lookupKey m "refusal" = if d.Refusal = "" then none else some (.str d.Refusal)) :
    ChatCompletionStreamChoiceDelta.unmarshalAliasObj m {} =
      .ok { Content := d.Content, ReasoningContent := d.ReasoningContent, Role := d.Role,
            FunctionCall := d.FunctionCall, ToolCalls := d.ToolCalls, Refusal := d.Refusal,
            rawExt := {} } := by
  simp only [ChatCompletionStreamChoiceDelta.unmarshalAliasObj,
    decodeStringField_of_lookup m "content" d.Content h1,
    decodeStringField_of_lookup m "reasoning_content" d.ReasoningContent h2,
    decodeStringField_of_lookup m "role" d.Role h3,
    decodeValField_of_lookup m "function_call" d.FunctionCall h4 hnn,
    decodeArrField_of_lookup m "tool_calls" d.ToolCalls h5,
    decodeStringField_of_lookup m "refusal" d.Refusal h6]

/-- C1 (amended): round-trip identity for a typed record with known fields
plus a non-empty extension map, provided the extension map's keys avoid the
record type's JSON field names.  Encoding a `ChatCompletionStreamChoiceDelta`
with `MarshalWithExtensions` and decoding the bytes with
`UnmarshalWithExtensions` into a fresh record reproduces every known-field
value and the extension map exactly.  (The serializability and non-`null`
hypotheses on the abstracted `FunctionCall`/`ToolCalls` contents hold for
every real Go value of those types.) -/
theorem C1_roundtrip_identity_amended
    (d : ChatCompletionStreamChoiceDelta) (ext : List (String × GoVal))
    (hext : d.rawExt.Extensions = some ext)
    (hne : ext ≠ [])
    (hnodup : (keysOf ext).Nodup)
    (hdisj : ∀ p ∈ ext, p.1 ∉ deltaFieldNames)
    (hser : serializableFields ext = true)
    (hfcnn : ∀ v, d.FunctionCall = some v → v ≠ GoVal.null)
    (hfcser : ∀ v, d.FunctionCall = some v → serializable v = true)
    (htcser : serializableList d.ToolCalls = true) :
    ∃ bytes t,
      d.MarshalJSON = .ok bytes ∧
      ChatCompletionStreamChoiceDelta.UnmarshalJSON {} bytes = (t, .ok ()) ∧
      t.Content = d.Content ∧ t.ReasoningContent = d.ReasoningContent ∧
      t.Role = d.Role ∧ t.FunctionCall = d.FunctionCall ∧
      t.ToolCalls = d.ToolCalls ∧ t.Refusal = d.Refusal ∧
      t.rawExt.Extensions = some ext := by
  have hserBase : serializableFields (deltaBaseFields d) = true :=
    serializable_dbf d hfcser htcser
  have hnodupBase := nodup_keysOf_dbf d
  have hdisjBase : ∀ p ∈ ext, p.1 ∉ keysOf (deltaBaseFields d) :=
    fun p hp hmem => hdisj p hp (keysOf_dbf_sub d _ hmem)
  have hextnone : ∀ key, key ∈ deltaFieldNames → lookupKey ext key = none := by
    intro key hkey
    apply lookupKey_eq_none
    intro hmem
    obtain ⟨p, hp, hpk⟩ := List.mem_map.mp hmem
    exact hdisj p hp (hpk ▸ hkey)
  have hbase : ChatCompletionStreamChoiceDelta.marshalAlias d =
      .ok (.json (.obj (deltaBaseFields d))) := by
    unfold ChatCompletionStreamChoiceDelta.marshalAlias marshalBytes
    simp [serializable, hserBase]
  have hcanonBase : canonObj (deltaBaseFields d) = deltaBaseFields d :=
    canonObj_of_nodup _ hnodupBase
  have hmerge : List.foldl (fun m kv => setKey m kv.1 kv.2) (deltaBaseFields d) ext =
      deltaBaseFields d ++ ext :=
    foldl_setKey_append ext (deltaBaseFields d) hdisjBase hnodup
  have hserM : serializable (.obj (deltaBaseFields d ++ ext)) = true := by
    simp [serializable, serializableFields_append, hserBase, hser]
  have hneB : ext.isEmpty = false := by
    cases ext with
    | nil => exact absurd rfl hne
    | cons a l => rfl
  have hmarshal : d.MarshalJSON = .ok (.json (.obj (deltaBaseFields d ++ ext))) := by
    unfold ChatCompletionStreamChoiceDelta.MarshalJSON MarshalWithExtensions
    rw [marshalAlias_delta, hbase, hext]
    simp [hneB, unmarshalToMap, hcanonBase, hmerge, marshalBytes, hserM]
  have hc : "content" ∈ deltaFieldNames := by unfold deltaFieldNames; simp
  have hrc : "reasoning_content" ∈ deltaFieldNames := by unfold deltaFieldNames; simp
  have hro : "role" ∈ deltaFieldNames := by unfold deltaFieldNames; simp
  have hfcm : "function_call" ∈ deltaFieldNames := by unfold deltaFieldNames; simp
  have htcm : "tool_calls" ∈ deltaFieldNames := by unfold deltaFieldNames; simp
  have hrf : "refusal" ∈ deltaFieldNames := by unfold deltaFieldNames; simp
  have h1' : lookupKey (deltaBaseFields d ++ ext) "content" =
      if d.Content = "" then none else some (.str d.Content) := by
    rw [lookupKey_append, lookup_dbf_content]
    by_cases hx : d.Content = "" <;> simp [hx, hextnone "content" hc]
  have h2' : lookupKey (deltaBaseFields d ++ ext) "reasoning_content" =
      if d.ReasoningContent = "" then none else some (.str d.ReasoningContent) := by
    rw [lookupKey_append, lookup_dbf_reasoning]
    by_cases hx : d.ReasoningContent = "" <;> simp [hx, hextnone "reasoning_content" hrc]
  have h3' : lookupKey (deltaBaseFields d ++ ext) "role" =
      if d.Role = "" then none else some (.str d.Role) := by
    rw [lookupKey_append, lookup_dbf_role]
    by_cases hx : d.Role = "" <;> simp [hx, hextnone "role" hro]
  have h4' : lookupKey (deltaBaseFields d ++ ext) "function_call" =
      match d.FunctionCall with
      | none => none
      | some v => some v := by
    rw [lookupKey_append, lookup_dbf_function_call]
    cases d.FunctionCall <;> simp [hextnone "function_call" hfcm]
  have h5' : lookupKey (deltaBaseFields d ++ ext) "tool_calls" =
      if d.ToolCalls.isEmpty then none else some (.arr d.ToolCalls) := by
    rw [lookupKey_append, lookup_dbf_tool_calls]
    by_cases hx : d.ToolCalls.isEmpty <;> simp [hx, hextnone "tool_calls" htcm]
  have h6' : lookupKey (deltaBaseFields d ++ ext) "refusal" =
      if d.Refusal = "" then none else some (.str d.Refusal) := by
    rw [lookupKey_append, lookup_dbf_refusal]
    by_cases hx : d.Refusal = "" <;> simp [hx, hextnone "refusal" hrf]
  have hnodupM : (keysOf (deltaBaseFields d ++ ext)).Nodup := by
    rw [keysOf_append]
    refine List.Nodup.append hnodupBase hnodup ?_
    intro a ha hae
    obtain ⟨p, hp, hpk⟩ := List.mem_map.mp hae
    exact hdisj p hp (hpk ▸ keysOf_dbf_sub d a ha)
  have hcanonM : canonObj (deltaBaseFields d ++ ext) = deltaBaseFields d ++ ext :=
    canonObj_of_nodup _ hnodupM
  have hdec := delta_unmarshalAliasObj_of_lookups (deltaBaseFields d ++ ext) d
    h1' h2' h3' h4' hfcnn h5' h6'
  have hUA : ChatCompletionStreamChoiceDelta.unmarshalAlias
      (.json (.obj (deltaBaseFields d ++ ext))) {} =
      .ok { Content := d.Content, ReasoningContent := d.ReasoningContent, Role := d.Role,
            FunctionCall := d.FunctionCall, ToolCalls := d.ToolCalls, Refusal := d.Refusal,
            rawExt := {} } := by
    show ChatCompletionStreamChoiceDelta.unmarshalAliasObj
      (canonObj (deltaBaseFields d ++ ext)) {} = _
    rw [hcanonM]
    exact hdec
  have hbase_t : ChatCompletionStreamChoiceDelta.marshalAlias
      { Content := d.Content, ReasoningContent := d.ReasoningContent, Role := d.Role,
        FunctionCall := d.FunctionCall, ToolCalls := d.ToolCalls, Refusal := d.Refusal,
        rawExt := ({} : RawExtensions) } =
      .ok (.json (.obj (deltaBaseFields d))) := hbase
  have hknown : getKnownFields
      ({ Content := d.Content, ReasoningContent := d.ReasoningContent, Role := d.Role,
         FunctionCall := d.FunctionCall, ToolCalls := d.ToolCalls, Refusal := d.Refusal,
         rawExt := ({} : RawExtensions) } : ChatCompletionStreamChoiceDelta) =
      keysOf (deltaBaseFields d) := by
    unfold getKnownFields
    rw [marshalAlias_delta, hbase_t]
    simp [unmarshalToMap, hcanonBase]
  have hfilter : (deltaBaseFields d ++ ext).filter
      (fun kv => !((keysOf (deltaBaseFields d)).contains kv.1)) = ext := by
    rw [List.filter_append, filterKeys_all_known _ _ (fun p hp => mem_keysOf p _ hp),
        filterKeys_none_known _ _ hdisjBase]
    simp
  have hserE : marshalBytes (.obj ext) = .ok (.json (.obj ext)) := by
    unfold marshalBytes
    simp [serializable, hser]
  have hneE : ext.isEmpty = false := hneB
  refine ⟨.json (.obj (deltaBaseFields d ++ ext)),
    { Content := d.Content, ReasoningContent := d.ReasoningContent, Role := d.Role,
      FunctionCall := d.FunctionCall, ToolCalls := d.ToolCalls, Refusal := d.Refusal,
      rawExt := { Extensions := some ext,
                  RawData := some (.json (.obj (deltaBaseFields d ++ ext))),
                  ExtensionRawData := some (.json (.obj ext)) } },
    hmarshal, ?_, rfl, rfl, rfl, rfl, rfl, rfl, rfl⟩
  unfold ChatCompletionStreamChoiceDelta.UnmarshalJSON UnmarshalWithExtensions
  rw [unmarshalAlias_delta, hUA]
  simp only [unmarshalToMap, hcanonM, hknown, hfilter, hneE, hserE,
    RawExtensions.SetRawData]
  simp

/-- C1 witness: the amended round trip at a concrete delta (`Content` `"hi"`,
extension map `{"x": 1}`). -/
theorem C1_roundtrip_identity_amended_witness :
    ∃ bytes t,
      ({ Content := "hi",
         rawExt := { Extensions := some [("x", GoVal.num 1)] } } :
        ChatCompletionStreamChoiceDelta).MarshalJSON = .ok bytes ∧
      ChatCompletionStreamChoiceDelta.UnmarshalJSON {} bytes = (t, .ok ()) ∧
      t.Content = "hi" ∧ t.ReasoningContent = "" ∧ t.Role = "" ∧
      t.FunctionCall = none ∧ t.ToolCalls = [] ∧ t.Refusal = "" ∧
      t.rawExt.Extensions = some [("x", GoVal.num 1)] :=
  C1_roundtrip_identity_amended
    { Content := "hi", rawExt := { Extensions := some [("x", GoVal.num 1)] } }
    [("x", GoVal.num 1)] rfl (by simp) (by decide) (by decide) (by decide)
    (fun v h => nomatch h) (fun v h => nomatch h) (by decide)

/-- C1 counterexample: the claim fails for an extension map whose key collides
with a known field name.  The delta `Content := "hi"` with extension map
`{"content": "bye"}` encodes to `{"content":"bye"}` (the extension wins), and
decoding that yields `Content = "bye"` with an empty extension map — neither
the known field nor the extension map of the original record is reproduced. -/
theorem C1_roundtrip_identity_counterexample :
    ({ Content := "hi",
       rawExt := { Extensions := some [("content", GoVal.str "bye")] } } :
      ChatCompletionStreamChoiceDelta).MarshalJSON =
        .ok (.json (.obj [("content", GoVal.str "bye")])) ∧
    ChatCompletionStreamChoiceDelta.UnmarshalJSON {}
        (.json (.obj [("content", GoVal.str "bye")])) =
      ({ Content := "bye",
         rawExt := { RawData := some (.json (.obj [("content", GoVal.str "bye")])) } },
       .ok ()) ∧
    ("bye" : String) ≠ "hi" ∧
    (none : Option (List (String × GoVal))) ≠ some [("content", GoVal.str "bye")] :=
  ⟨rfl, rfl, by decide, by simp⟩

/-- C7: `UnmarshalWithExtensions` stores an exact copy of the input bytes as
`RawData` first, so `GetRawData` on the store afterwards returns the input —
on every path, including the error paths.  (`SetRawData`'s copy of an
immutable byte value is the value itself.) -/
theorem C7_rawdata_verbatim {α : Type} [GoJson α] (data : GoBytes) (target : α)
    (extensions : RawExtensions) :
    (UnmarshalWithExtensions data target extensions).1.GetRawData = some data ∧
    (UnmarshalWithExtensions data target extensions).1.RawData = some data ∧
    (extensions.SetRawData data).RawData = some data := by
  refine ⟨?_, ?_, rfl⟩ <;>
  · unfold UnmarshalWithExtensions
    dsimp only
    split
    · rfl
    · split
      · rfl
      · split
        · rfl
        · split <;> rfl

/-- C8: when the extension map handed to `MarshalWithExtensions` is empty
(`nil` and the empty Go map coincide: both have length zero), the function
returns the base serialization unchanged, with no merge step. -/
theorem C8_empty_extensions_fast_path {α : Type} [GoJson α] (target : α) (b : GoBytes)
    (hbase : GoJson.marshalAlias target = .ok b) :
    MarshalWithExtensions target [] = .ok b := by
  unfold MarshalWithExtensions
  rw [hbase]
  rfl

/-- C8 witness: the fast path on the zero-valued delta. -/
theorem C8_empty_extensions_fast_path_witness :
    MarshalWithExtensions ({} : ChatCompletionStreamChoiceDelta) [] =
      .ok (.json (.obj [])) :=
  C8_empty_extensions_fast_path ({} : ChatCompletionStreamChoiceDelta)
    (.json (.obj [])) rfl

/-- C10: extension store coherence.  `GetExtension k` right after
`SetExtension k v` returns `(v, true)`; `SetExtension k v` leaves every other
key unchanged; and `GetExtension` on a store whose map is still `nil`, or on
a key absent from the map, returns `exists = false` (with the `nil`
interface value). -/
theorem C10_extension_store_get_set (r r0 : RawExtensions) (k k' : String) (v : GoVal)
    (hne : k' ≠ k) (h0 : r0.Extensions = none) :
    (r.SetExtension k v).GetExtension k = (v, true) ∧
    (r.SetExtension k v).GetExtension k' = r.GetExtension k' ∧
    r0.GetExtension k = (.null, false) ∧
    (∀ m, r.Extensions = some m → lookupKey m k = none →
      r.GetExtension k = (.null, false)) := by
  refine ⟨?_, ?_, ?_, ?_⟩
  · cases hE : r.Extensions <;>
      simp [RawExtensions.SetExtension, RawExtensions.GetExtension, hE,
        lookupKey_setKey, lookupKey]
  · cases hE : r.Extensions <;>
      simp [RawExtensions.SetExtension, RawExtensions.GetExtension, hE,
        lookupKey_setKey, lookupKey, hne]
  · simp [RawExtensions.GetExtension, h0]
  · intro m hm hlk
    simp [RawExtensions.GetExtension, hm, hlk]

/-- C10 witness: the store operations at concrete keys and values. -/
theorem C10_extension_store_get_set_witness :
    (({ Extensions := some [("a", GoVal.null)] } :
        RawExtensions).SetExtension "b" (GoVal.num 5)).GetExtension "b" =
      (GoVal.num 5, true) ∧
    (({ Extensions := some [("a", GoVal.null)] } :
        RawExtensions).SetExtension "b" (GoVal.num 5)).GetExtension "a" =
      ({ Extensions := some [("a", GoVal.null)] } : RawExtensions).GetExtension "a" ∧
    ({} : RawExtensions).GetExtension "b" = (GoVal.null, false) :=
  let h := C10_extension_store_get_set
    { Extensions := some [("a", GoVal.null)] } {} "b" "a" (GoVal.num 5)
    (by decide) rfl
  ⟨h.1, h.2.1, h.2.2.1⟩

theorem not_mem_of_mem_filterKeys (l : List (String × GoVal)) (ks : List String)
    (p : String × GoVal) (hp : p ∈ l.filter (fun kv => !(ks.contains kv.1))) :
    p.1 ∉ ks := by
  have h := List.of_mem_filter hp
  intro hmem
  simp [hmem] at h

/-- C2: merge precedence of `MarshalWithExtensions`.  Whenever the merge
produces output, every key of the extension map — including a key that
collides with a schema-emitted base field — is bound to the extension map's
value in the output, and every other key keeps its base-serialization value,
so the output is the union of base and extension fields with the extension
winning on collision. -/
theorem C2_merge_precedence {α : Type} [GoJson α] (target : α)
    (ext bes out : List (String × GoVal))
    (hnodup : (keysOf ext).Nodup)
    (hne : ext ≠ [])
    (hbase : GoJson.marshalAlias target = .ok (.json (.obj bes)))
    (hrun : MarshalWithExtensions target ext = .ok (.json (.obj out))) :
    (∀ k v, lookupKey ext k = some v → lookupKey out k = some v) ∧
    (∀ k, lookupKey ext k = none → lookupKey out k = lookupKey (canonObj bes) k) := by
  unfold MarshalWithExtensions at hrun
  rw [hbase] at hrun
  have hneB : ext.isEmpty = false := by
    cases ext with
    | nil => exact absurd rfl hne
    | cons a l => rfl
  rw [hneB] at hrun
  simp only [unmarshalToMap, Bool.false_eq_true, if_false, marshalBytes] at hrun
  split at hrun
  · have hout : List.foldl (fun m kv => setKey m kv.1 kv.2) (canonObj bes) ext = out := by
      have := hrun
      simp only [Except.ok.injEq] at this
      cases this
      rfl
    constructor
    · intro k v hk
      rw [← hout]
      exact lookupKey_foldl_of_some ext k v hnodup hk (canonObj bes)
    · intro k hk
      rw [← hout]
      exact lookupKey_foldl_of_none ext k hk (canonObj bes)
  · exact absurd hrun (by simp)

/-- C2 witness: merging the extension map `{"content": "bye"}` over a delta
whose base serialization already emits `content` binds `content` to the
extension's value in the output. -/
theorem C2_merge_precedence_witness :
    MarshalWithExtensions ({ Content := "hi" } : ChatCompletionStreamChoiceDelta)
      [("content", GoVal.str "bye")] =
      .ok (.json (.obj [("content", GoVal.str "bye")])) ∧
    lookupKey [("content", GoVal.str "bye")] "content" = some (GoVal.str "bye") :=
  ⟨rfl,
   (C2_merge_precedence ({ Content := "hi" } : ChatCompletionStreamChoiceDelta)
     [("content", GoVal.str "bye")] [("content", GoVal.str "hi")]
     [("content", GoVal.str "bye")] (by decide) (by simp) rfl rfl).1
     "content" (GoVal.str "bye") rfl⟩

/-- C6: a failure to re-serialize the extension-only subset during decode is
non-fatal: `UnmarshalWithExtensions` still returns success with the typed
fields and the extension map populated, and `ExtensionRawData` is left as it
was (empty for a store that starts empty). -/
theorem C6_extension_reserialize_nonfatal {α : Type} [GoJson α] (data : GoBytes)
    (target : α) (ext0 : RawExtensions) (t : α)
    (allFields : List (String × GoVal)) (e : String)
    (h1 : GoJson.unmarshalAlias data target = .ok t)
    (h2 : unmarshalToMap data = .ok allFields)
    (hne : (allFields.filter
      (fun kv => !((getKnownFields t).contains kv.1))).isEmpty = false)
    (hfail : marshalBytes (.obj (allFields.filter
      (fun kv => !((getKnownFields t).contains kv.1)))) = .error e)
    (h0 : ext0.ExtensionRawData = none) :
    UnmarshalWithExtensions data target ext0 =
      ({ ext0 with
          RawData := some data,
          Extensions := some (allFields.filter
            (fun kv => !((getKnownFields t).contains kv.1))) },
        .ok t) ∧
    (UnmarshalWithExtensions data target ext0).1.ExtensionRawData = none := by
  have hmain : UnmarshalWithExtensions data target ext0 =
      ({ ext0 with
          RawData := some data,
          Extensions := some (allFields.filter
            (fun kv => !((getKnownFields t).contains kv.1))) },
        .ok t) := by
    unfold UnmarshalWithExtensions
    rw [h1, h2]
    dsimp only
    rw [hne, hfail]
    rfl
  exact ⟨hmain, by rw [hmain]; exact h0⟩

/-- C6 witness: decoding `{"weird": <unserializable value>}` into a fresh
delta splits fine but the extension subset cannot be re-serialized; the
decode still succeeds, the extension map is populated, and
`ExtensionRawData` stays empty. -/
theorem C6_extension_reserialize_nonfatal_witness :
    UnmarshalWithExtensions (.json (.obj [("weird", GoVal.unsupported "chan")]))
      ({} : ChatCompletionStreamChoiceDelta) {} =
      ({ Extensions := some [("weird", GoVal.unsupported "chan")],
         RawData := some (.json (.obj [("weird", GoVal.unsupported "chan")])),
         ExtensionRawData := none },
       .ok ({} : ChatCompletionStreamChoiceDelta)) ∧
    (UnmarshalWithExtensions (.json (.obj [("weird", GoVal.unsupported "chan")]))
      ({} : ChatCompletionStreamChoiceDelta) {}).1.ExtensionRawData = none :=
  C6_extension_reserialize_nonfatal
    (.json (.obj [("weird", GoVal.unsupported "chan")]))
    ({} : ChatCompletionStreamChoiceDelta) {} {}
    [("weird", GoVal.unsupported "chan")] "json: unsupported type"
    rfl rfl rfl rfl rfl

/-- C3 (amended): disjointness and exactness on decode hold for a store whose
extension map is empty when the decode starts (e.g. a freshly constructed
record): after a successful `UnmarshalWithExtensions`, the store's extension
map is exactly the payload entries whose keys are outside
`getKnownFields` of the populated target, and hence contains no known key.
For a reused store, an empty computed extension subset leaves the previous
extension map in place. -/
theorem C3_disjointness_amended {α : Type} [GoJson α] (data : GoBytes) (target : α)
    (ext0 : RawExtensions) (t : α) (ext' : RawExtensions)
    (allFields : List (String × GoVal))
    (hfresh : ext0.Extensions = none)
    (hall : unmarshalToMap data = .ok allFields)
    (hrun : UnmarshalWithExtensions data target ext0 = (ext', .ok t)) :
    ext'.Extensions.getD [] =
      allFields.filter (fun kv => !((getKnownFields t).contains kv.1)) ∧
    (∀ p ∈ ext'.Extensions.getD [], p.1 ∉ getKnownFields t) := by
  unfold UnmarshalWithExtensions at hrun
  rw [hall] at hrun
  split at hrun
  · simp [Prod.ext_iff] at hrun
  · rename_i t₁ heq
    dsimp only at hrun
    split at hrun
    · rename_i hEmpty
      injection hrun with h₁ h₂
      injection h₂ with h₂
      subst h₂
      have hnil : allFields.filter (fun kv => !((getKnownFields t₁).contains kv.1)) = [] := by
        cases hf : allFields.filter (fun kv => !((getKnownFields t₁).contains kv.1)) with
        | nil => rfl
        | cons a l => rw [hf] at hEmpty; simp at hEmpty
      constructor
      · rw [← h₁, hnil]
        simp [RawExtensions.SetRawData, hfresh]
      · intro p hp
        rw [← h₁] at hp
        simp [RawExtensions.SetRawData, hfresh] at hp
    · split at hrun <;>
      · injection hrun with h₁ h₂
        injection h₂ with h₂
        subst h₂
        constructor
        · rw [← h₁]
          rfl
        · intro p hp
          rw [← h₁] at hp
          have hp' : p ∈ allFields.filter
              (fun kv => !((getKnownFields t₁).contains kv.1)) := by simpa using hp
          exact not_mem_of_mem_filterKeys allFields _ p hp'

/-- C3 witness: decoding `{"x": 1, "content": "hi"}` into a fresh delta puts
exactly the unknown key `x` into the extension map, and `x` is not a known
field of the populated target. -/
theorem C3_disjointness_amended_witness :
    ({ Extensions := some [("x", GoVal.num 1)],
       RawData := some (.json (.obj [("x", GoVal.num 1), ("content", GoVal.str "hi")])),
       ExtensionRawData := some (.json (.obj [("x", GoVal.num 1)])) } :
      RawExtensions).Extensions.getD [] =
      ([("x", GoVal.num 1), ("content", GoVal.str "hi")].filter
        (fun kv => !((getKnownFields
          ({ Content := "hi" } : ChatCompletionStreamChoiceDelta)).contains kv.1))) ∧
    ("x" ∉ getKnownFields ({ Content := "hi" } : ChatCompletionStreamChoiceDelta)) :=
  let h := C3_disjointness_amended
    (.json (.obj [("x", GoVal.num 1), ("content", GoVal.str "hi")]))
    ({} : ChatCompletionStreamChoiceDelta) {}
    ({ Content := "hi" } : ChatCompletionStreamChoiceDelta)
    { Extensions := some [("x", GoVal.num 1)],
      RawData := some (.json (.obj [("x", GoVal.num 1), ("content", GoVal.str "hi")])),
      ExtensionRawData := some (.json (.obj [("x", GoVal.num 1)])) }
    [("x", GoVal.num 1), ("content", GoVal.str "hi")]
    rfl rfl rfl
  ⟨h.1, h.2 ("x", GoVal.num 1) (List.mem_singleton.mpr rfl)⟩

/-- C3 counterexample: the claim as stated fails for a reused store.  A store
carrying the stale extension entry `{"content": ""}` (left over from an
earlier decode) is passed to `UnmarshalWithExtensions` with payload
`{"content": "hi"}`: the computed extension subset is empty, so the stale map
is kept — the resulting extension map still binds `content`, which is a
member of the known-field set of the populated target, and it is not the
(empty) set of payload keys outside the known-field set. -/
theorem C3_disjointness_counterexample :
    UnmarshalWithExtensions (.json (.obj [("content", GoVal.str "hi")]))
      ({} : ChatCompletionStreamChoiceDelta)
      { Extensions := some [("content", GoVal.str "")] } =
      ({ Extensions := some [("content", GoVal.str "")],
         RawData := some (.json (.obj [("content", GoVal.str "hi")])) },
       .ok ({ Content := "hi" } : ChatCompletionStreamChoiceDelta)) ∧
    "content" ∈ getKnownFields ({ Content := "hi" } : ChatCompletionStreamChoiceDelta) ∧
    lookupKey [("content", GoVal.str "")] "content" = some (GoVal.str "") :=
  ⟨rfl, by decide, rfl⟩

theorem delta_unmarshalAliasObj_content (m : List (String × GoVal))
    (d t : ChatCompletionStreamChoiceDelta) (s : String)
    (hs : lookupKey m "content" = some (.str s))
    (h : ChatCompletionStreamChoiceDelta.unmarshalAliasObj m d = .ok t) :
    t.Content = s := by
  have h1 : decodeStringField m "content" d.Content = .ok s := by
    unfold decodeStringField
    rw [hs]
  unfold ChatCompletionStreamChoiceDelta.unmarshalAliasObj at h
  rw [h1] at h
  dsimp only at h
  split at h
  · exact absurd h (by simp)
  · split at h
    · exact absurd h (by simp)
    · split at h
      · exact absurd h (by simp)
      · split at h
        · exact absurd h (by simp)
        · injection h with h'
          rw [← h']

theorem content_not_known_of_empty (t : ChatCompletionStreamChoiceDelta)
    (h : t.Content = "") : "content" ∉ getKnownFields t := by
  intro hmem
  unfold getKnownFields at hmem
  rw [marshalAlias_delta] at hmem
  unfold ChatCompletionStreamChoiceDelta.marshalAlias marshalBytes at hmem
  by_cases hs : serializable (.obj (deltaBaseFields t)) = true
  · rw [if_pos hs] at hmem
    dsimp only [unmarshalToMap] at hmem
    have hsub := keysOf_canonObj_sub (deltaBaseFields t) "content" hmem
    have hlook := lookup_isSome_of_mem_keysOf (deltaBaseFields t) "content" hsub
    rw [lookup_dbf_content, h] at hlook
    simp at hlook
  · rw [if_neg hs] at hmem
    simp at hmem

/-- C4: zero-value misclassification.  For the delta type, whose `content`
field omits empty values, a successfully decoded payload that explicitly
carries `"content": ""` leaves the populated target's `Content` empty, so
`content` is absent from `getKnownFields` and the payload's `content` member
is classified into the extension map by `UnmarshalWithExtensions`. -/
theorem C4_zero_value_misclassification (es : List (String × GoVal))
    (d0 : ChatCompletionStreamChoiceDelta) (ext0 ext' : RawExtensions)
    (t : ChatCompletionStreamChoiceDelta)
    (hcontent : lookupKey (canonObj es) "content" = some (.str ""))
    (hrun : UnmarshalWithExtensions (.json (.obj es)) d0 ext0 = (ext', .ok t)) :
    t.Content = "" ∧
    "content" ∉ getKnownFields t ∧
    lookupKey (ext'.Extensions.getD []) "content" = some (GoVal.str "") := by
  unfold UnmarshalWithExtensions at hrun
  split at hrun
  · simp [Prod.ext_iff] at hrun
  · rename_i t₁ heq
    have hUA : ChatCompletionStreamChoiceDelta.unmarshalAliasObj (canonObj es) d0 =
        .ok t₁ := heq
    dsimp only [unmarshalToMap] at hrun
    have hC : t₁.Content = "" := delta_unmarshalAliasObj_content _ d0 t₁ "" hcontent hUA
    have hNK : "content" ∉ getKnownFields t₁ := content_not_known_of_empty t₁ hC
    have hcontains : ((getKnownFields t₁).contains "content") = false := by
      cases hcc : (getKnownFields t₁).contains "content"
      · rfl
      · exact absurd (List.elem_iff.mp hcc) hNK
    have hlf : lookupKey ((canonObj es).filter
        (fun kv => !((getKnownFields t₁).contains kv.1))) "content" =
        some (GoVal.str "") := by
      rw [lookupKey_filterKeys (fun s => !((getKnownFields t₁).contains s))]
      simp [hcontains, hcontent, hNK]
    have hnonempty : ((canonObj es).filter
        (fun kv => !((getKnownFields t₁).contains kv.1))).isEmpty = false :=
      isEmpty_false_of_lookup _ _ _ hlf
    split at hrun
    · rename_i hemp
      rw [hnonempty] at hemp
      simp at hemp
    · split at hrun <;>
      · injection hrun with h₁ h₂
        injection h₂ with h₂
        subst h₂
        refine ⟨hC, hNK, ?_⟩
        rw [← h₁]
        exact hlf

/-- C4 witness: decoding `{"content": ""}` into a fresh delta classifies
`content` into the extension map. -/
theorem C4_zero_value_misclassification_witness :
    ({} : ChatCompletionStreamChoiceDelta).Content = "" ∧
    "content" ∉ getKnownFields ({} : ChatCompletionStreamChoiceDelta) ∧
    lookupKey (({ Extensions := some [("content", GoVal.str "")],
                  RawData := some (.json (.obj [("content", GoVal.str "")])),
                  ExtensionRawData := some (.json (.obj [("content", GoVal.str "")])) } :
      RawExtensions).Extensions.getD []) "content" = some (GoVal.str "") :=
  C4_zero_value_misclassification [("content", GoVal.str "")] {} {}
    { Extensions := some [("content", GoVal.str "")],
      RawData := some (.json (.obj [("content", GoVal.str "")])),
      ExtensionRawData := some (.json (.obj [("content", GoVal.str "")])) }
    {} rfl rfl

theorem marshalBytes_obj_inv (es out : List (String × GoVal))
    (h : marshalBytes (.obj es) = .ok (.json (.obj out))) : es = out := by
  unfold marshalBytes at h
  split at h
  · simp only [Except.ok.injEq, GoBytes.json.injEq, GoVal.obj.injEq] at h
    exact h
  · exact absurd h (by simp)

/-- C5 (spec-modelled): content exclusivity of the chat-message encoder.
Encoding a message with both a non-empty single content string and a
non-empty multi-content list fails with `ErrContentFieldsMisused` and
returns no bytes; with only one form set, encoding succeeds and the output's
single `content` member carries exactly that form (string or array), the
other being absent. -/
theorem C5_content_exclusivity (m : ChatCompletionMessage) :
    (m.Content ≠ "" → m.MultiContent ≠ [] →
      m.MarshalJSON = .error "ErrContentFieldsMisused") ∧
    (m.MultiContent = [] → ∀ out, m.MarshalJSON = .ok (.json (.obj out)) →
      lookupKey out "content" =
        if m.Content = "" then none else some (.str m.Content)) ∧
    (m.Content = "" → m.MultiContent ≠ [] →
      ∀ out, m.MarshalJSON = .ok (.json (.obj out)) →
      lookupKey out "content" = some (.arr m.MultiContent)) := by
  refine ⟨?_, ?_, ?_⟩
  · intro h1 h2
    have h2' : ¬m.MultiContent.isEmpty = true := by
      cases hmc : m.MultiContent with
      | nil => exact absurd hmc h2
      | cons a l => simp [hmc]
    unfold ChatCompletionMessage.MarshalJSON
    rw [if_pos ⟨h1, h2'⟩]
  · intro hmc out hout
    unfold ChatCompletionMessage.MarshalJSON at hout
    rw [hmc] at hout
    rw [if_neg (by simp)] at hout
    have hout' := marshalBytes_obj_inv _ out hout
    rw [← hout']
    by_cases hr : m.Role = "" <;> by_cases hc : m.Content = "" <;>
      simp [hr, hc, lookupKey_append, lookupKey]
  · intro hc hmc out hout
    have hmc' : ¬m.MultiContent.isEmpty = true := by
      cases hmcs : m.MultiContent with
      | nil => exact absurd hmcs hmc
      | cons a l => simp [hmcs]
    unfold ChatCompletionMessage.MarshalJSON at hout
    rw [if_neg (fun hcon => hcon.1 hc)] at hout
    rw [if_pos hmc'] at hout
    have hout' := marshalBytes_obj_inv _ out hout
    rw [← hout']
    by_cases hr : m.Role = "" <;> simp [hr, lookupKey_append, lookupKey]

/-- C5 witness: a message with both forms set fails with
`ErrContentFieldsMisused`; a single-content message emits its string. -/
theorem C5_content_exclusivity_witness :
    ({ Role := "user", Content := "a",
       MultiContent := [GoVal.obj [("type", GoVal.str "text")]] } :
      ChatCompletionMessage).MarshalJSON = .error "ErrContentFieldsMisused" ∧
    lookupKey [("role", GoVal.str "user"), ("content", GoVal.str "hello")] "content" =
      some (GoVal.str "hello") :=
  ⟨(C5_content_exclusivity
      { Role := "user", Content := "a",
        MultiContent := [GoVal.obj [("type", GoVal.str "text")]] }).1
      (by decide) (by simp),
   (C5_content_exclusivity { Role := "user", Content := "hello" }).2.1 rfl
     [("role", GoVal.str "user"), ("content", GoVal.str "hello")] rfl⟩

theorem choice_baseFields_props (c : ChatCompletionStreamChoice)
    (fs : List (String × GoVal)) (h : c.baseFields = .ok fs) :
    lookupKey fs "finish_reason" = some (finishReasonJSON c.FinishReason) ∧
    (keysOf fs).Nodup := by
  unfold ChatCompletionStreamChoice.baseFields at h
  split at h
  · exact absurd h (by simp)
  · split at h
    · exact absurd h (by simp)
    · split at h
      · injection h with h'
        subst h'
        constructor
        · simp [lookupKey]
        · simp [keysOf]
      · split at h
        · exact absurd h (by simp)
        · split at h
          · exact absurd h (by simp)
          · injection h with h'
            subst h'
            constructor
            · simp [lookupKey]
            · simp [keysOf]

theorem finish_reason_conclusions (fr : String) (out : List (String × GoVal))
    (hlook : lookupKey out "finish_reason" = some (finishReasonJSON fr)) :
    lookupKey out "finish_reason" = some (finishReasonJSON fr) ∧
    (fr = "" → lookupKey out "finish_reason" = some GoVal.null) ∧
    (fr ≠ "" → lookupKey out "finish_reason" = some (.str fr)) ∧
    lookupKey out "finish_reason" ≠ some (.str "") := by
  refine ⟨hlook, ?_, ?_, ?_⟩
  · intro h
    rw [hlook]
    simp [finishReasonJSON, h]
  · intro h
    rw [hlook]
    simp [finishReasonJSON, h]
  · rw [hlook]
    unfold finishReasonJSON
    by_cases h : fr = "" <;> simp [h]

/-- C9 (amended): a `ChatCompletionStreamChoice` whose extension map does not
itself bind `finish_reason` serializes `finish_reason` as JSON `null` when
the field is unset or empty and as the quoted string otherwise, never as the
empty string.  (The `FinishReason` marshaler is modelled from the spec; the
base fields and their merge with extensions follow `chat_stream.go` and
`json.go`.) -/
theorem C9_finish_reason_null_amended (c : ChatCompletionStreamChoice)
    (out : List (String × GoVal))
    (hnoext : ∀ p ∈ c.rawExt.Extensions.getD [], p.1 ≠ "finish_reason")
    (hrun : c.MarshalJSON = .ok (.json (.obj out))) :
    lookupKey out "finish_reason" = some (finishReasonJSON c.FinishReason) ∧
    (c.FinishReason = "" → lookupKey out "finish_reason" = some GoVal.null) ∧
    (c.FinishReason ≠ "" → lookupKey out "finish_reason" = some (.str c.FinishReason)) ∧
    lookupKey out "finish_reason" ≠ some (.str "") := by
  have halias : GoJson.marshalAlias c = ChatCompletionStreamChoice.marshalAlias c := rfl
  unfold ChatCompletionStreamChoice.MarshalJSON MarshalWithExtensions at hrun
  rw [halias] at hrun
  unfold ChatCompletionStreamChoice.marshalAlias at hrun
  cases hbf : c.baseFields with
  | error e =>
    rw [hbf] at hrun
    simp at hrun
  | ok fs =>
    rw [hbf] at hrun
    dsimp only at hrun
    obtain ⟨hfr, hnodupfs⟩ := choice_baseFields_props c fs hbf
    unfold marshalBytes at hrun
    split at hrun
    · exact absurd hrun (by simp)
    · rename_i baseData heqB
      have hBD : baseData = .json (.obj fs) := by
        split at heqB
        · simp only [Except.ok.injEq] at heqB
          exact heqB.symm
        · exact absurd heqB (by simp)
      subst hBD
      split at hrun
      · simp only [Except.ok.injEq, GoBytes.json.injEq, GoVal.obj.injEq] at hrun
        subst hrun
        exact finish_reason_conclusions c.FinishReason fs hfr
      · dsimp only [unmarshalToMap] at hrun
        have hout := marshalBytes_obj_inv _ out hrun
        rw [← hout]
        refine finish_reason_conclusions c.FinishReason _ ?_
        have hextnone : lookupKey (c.rawExt.Extensions.getD []) "finish_reason" = none :=
          lookupKey_eq_none _ _ (fun hmem => by
            obtain ⟨p, hp, hpk⟩ := List.mem_map.mp hmem
            exact hnoext p hp hpk)
        rw [lookupKey_foldl_of_none _ _ hextnone, canonObj_of_nodup fs hnodupfs]
        exact hfr

/-- C9 witness: a choice with `FinishReason = "stop"` and no extensions emits
`"finish_reason": "stop"`, and the emitted value is never the empty string. -/
theorem C9_finish_reason_null_amended_witness :
    lookupKey [("index", GoVal.num 0), ("delta", GoVal.obj []),
               ("finish_reason", GoVal.str "stop"),
               ("content_filter_results", GoVal.obj [])] "finish_reason" =
      some (GoVal.str "stop") ∧
    lookupKey [("index", GoVal.num 0), ("delta", GoVal.obj []),
               ("finish_reason", GoVal.str "stop"),
               ("content_filter_results", GoVal.obj [])] "finish_reason" ≠
      some (GoVal.str "") :=
  let h := C9_finish_reason_null_amended
    ({ FinishReason := "stop" } : ChatCompletionStreamChoice)
    [("index", GoVal.num 0), ("delta", GoVal.obj []),
     ("finish_reason", GoVal.str "stop"), ("content_filter_results", GoVal.obj [])]
    (fun p hp => absurd hp (List.not_mem_nil p)) rfl
  ⟨h.2.2.1 (by decide), h.2.2.2⟩

/-- C9 counterexample: the claim as stated fails when the choice's extension
map itself binds `finish_reason`.  A stream choice with an empty
`FinishReason` whose extension map carries `{"finish_reason": ""}` serializes
`finish_reason` as the empty string `""` — the merge's extension-wins policy
overrides the `null` the base serialization emitted. -/
theorem C9_finish_reason_null_counterexample :
    ({ FinishReason := "",
       rawExt := { Extensions := some [("finish_reason", GoVal.str "")] } } :
      ChatCompletionStreamChoice).MarshalJSON =
      .ok (.json (.obj [("index", GoVal.num 0), ("delta", GoVal.obj []),
                        ("finish_reason", GoVal.str ""),
                        ("content_filter_results", GoVal.obj [])])) ∧
    lookupKey [("index", GoVal.num 0), ("delta", GoVal.obj []),
               ("finish_reason", GoVal.str ""),
               ("content_filter_results", GoVal.obj [])] "finish_reason" =
      some (GoVal.str "") ∧
    ({ FinishReason := "",
       rawExt := { Extensions := some [("finish_reason", GoVal.str "")] } } :
      ChatCompletionStreamChoice).FinishReason = "" :=
  ⟨rfl, rfl, rfl⟩
